import Mathlib

/-!
Shallow embedding of the mailbox-record normalization pipeline of
`extract-important-info.py` (the Record Normalizer), together with the parts of
the Python runtime it leans on: `re.findall` specialized to the email pattern
`[\w.+-]+@[\w-]+\.[\w.-]+`, `email.utils.parsedate_tz` (CPython 3.11
`email/_parseaddr.py`), and the `datetime` field validation and epoch
arithmetic used by `getDates`.  Strings are modelled as `List Char`; the
character classes (`\w`, whitespace, digits, case mapping) are modelled at the
ASCII level, matching Python's behaviour on ASCII input.  Fallible Python code
(raised exceptions) is modelled with `Except PyErr`.
-/

/-- Errors raised by the script, one constructor per raise site / exception
class that the pipeline can hit. -/
inductive PyErr where
  /-- `ValueError("Invalid RFC 2822 date format")` raised in `getDates` when
  `parsedate_tz` returns `None`. -/
  | invalidDateFormat
  /-- `ValueError` raised by `datetime.__new__` field validation, with the
  CPython message. -/
  | valueError (msg : String)
  /-- `OverflowError` from `timedelta` construction or datetime subtraction. -/
  | overflowError
  /-- `AttributeError`: calling `.split` on `None` (null `To` column). -/
  | attributeError
  /-- `TypeError`: `in` applied to `None` (null `From` column). -/
  | typeError
deriving DecidableEq, Repr

/-! ## ASCII character classes used by the Python runtime -/

/-- Python `\w` on ASCII input: letters, digits and underscore. -/
def isWordChar (c : Char) : Bool :=
  c.isAlpha || c.isDigit || c = '_'

/-- Python whitespace (`str.split()` / `str.rstrip()`) restricted to the
one-byte range: space, `\t`, `\n`, `\x0b`, `\x0c`, `\r` and `\x1c`-`\x1f`. -/
def isPySpace (c : Char) : Bool :=
  c = ' ' || (9 ≤ c.toNat && c.toNat ≤ 13) || (28 ≤ c.toNat && c.toNat ≤ 31)

/-! ## Python string primitives on `List Char` -/

/-- Python `a.startswith(b)` restricted to what we need: `b` is a prefix
of `a`. -/
def startsWithL : List Char → List Char → Bool
  | _, [] => true
  | [], _ :: _ => false
  | a :: as, b :: bs => a = b && startsWithL as bs

/-- Python substring containment `needle in hay`. -/
def containsSub (hay needle : List Char) : Bool :=
  match hay with
  | [] => needle.isEmpty
  | _ :: t => startsWithL hay needle || containsSub t needle

/-- Python `s.rstrip()`: remove trailing whitespace. -/
def rstripL (l : List Char) : List Char :=
  (l.reverse.dropWhile isPySpace).reverse

/-- Python `s.split(sep)` for a one-character separator: keeps empty pieces,
`"".split(sep) = [""]`. -/
def splitOnC (sep : Char) : List Char → List (List Char)
  | [] => [[]]
  | c :: t =>
    if c = sep then [] :: splitOnC sep t
    else
      match splitOnC sep t with
      | [] => [[c]]
      | h :: r => (c :: h) :: r

/-- Helper for `splitWs`: accumulates the current word (reversed). -/
def splitWsAux : List Char → List Char → List (List Char)
  | [], acc => if acc.isEmpty then [] else [acc.reverse]
  | c :: t, acc =>
    if isPySpace c then
      if acc.isEmpty then splitWsAux t [] else acc.reverse :: splitWsAux t []
    else splitWsAux t (c :: acc)

/-- Python `s.split()` (no argument): split on runs of whitespace, dropping
empty pieces. -/
def splitWs (l : List Char) : List (List Char) :=
  splitWsAux l []

/-- Python `s.find(c)` for a single character: first index, `none` for -1. -/
def findIdx? (c : Char) : List Char → Option Nat
  | [] => none
  | h :: t => if h = c then some 0 else (findIdx? c t).map (· + 1)

/-- Python `s.rfind(c)` for a single character: last index, `none` for -1. -/
def rfindIdx? (c : Char) (l : List Char) : Option Nat :=
  match findIdx? c l.reverse with
  | none => none
  | some i => some (l.length - 1 - i)

/-- Python `s.lower()` on ASCII. -/
def lowerL (l : List Char) : List Char := l.map Char.toLower

/-- Python `s.upper()` on ASCII. -/
def upperL (l : List Char) : List Char := l.map Char.toUpper

/-- Digit run of Python `int()`: one or more ASCII digits, a single `_`
allowed between two digits.  Returns the value. -/
def pyDigitsLoop : List Char → Nat → Option Nat
  | [], acc => some acc
  | c :: t, acc =>
    if c.isDigit then pyDigitsLoop t (acc * 10 + (c.toNat - 48))
    else if c = '_' then
      match t with
      | [] => none
      | d :: t2 =>
        if d.isDigit then pyDigitsLoop t2 (acc * 10 + (d.toNat - 48)) else none
    else none

/-- Nonempty digit sequence for Python `int()`. -/
def pyDigits : List Char → Option Nat
  | [] => none
  | c :: t => if c.isDigit then pyDigitsLoop t (c.toNat - 48) else none

/-- Python `int(s)` for a decimal string literal: optional surrounding
whitespace, optional sign, ASCII digits with `_` separators.  `none` models a
raised `ValueError`. -/
def pyInt (l : List Char) : Option Int :=
  let l := ((l.dropWhile isPySpace).reverse.dropWhile isPySpace).reverse
  match l with
  | '+' :: t => (pyDigits t).map Int.ofNat
  | '-' :: t => (pyDigits t).map (fun n => -(Int.ofNat n : Int))
  | _ => (pyDigits l).map Int.ofNat

/-! ## `extractEmails`: `re.findall(r'[\w.+-]+@[\w-]+\.[\w.-]+', s)`

The pattern's three character classes are disjoint from `@` and from the class
boundaries that follow them, so the regex is deterministic: each greedy `+` is
exactly a maximal run and no backtracking can succeed where the maximal run
fails.  `matchEmailAt` is the anchored match, `findAllAux`/`findAllL` the
left-to-right non-overlapping scan of `re.findall`. -/

/-- Class of the local part `[\w.+-]`. -/
def isLocalChar (c : Char) : Bool := isWordChar c || c = '.' || c = '+' || c = '-'

/-- Class of the first domain label `[\w-]`. -/
def isDomChar (c : Char) : Bool := isWordChar c || c = '-'

/-- Class of the domain tail `[\w.-]`. -/
def isTailChar (c : Char) : Bool := isWordChar c || c = '.' || c = '-'

/-- Anchored match of `[\w.+-]+@[\w-]+\.[\w.-]+` at the head of `l`:
returns the matched characters and the rest on success. -/
def matchEmailAt (l : List Char) : Option (List Char × List Char) :=
  let a := l.takeWhile isLocalChar
  if a.isEmpty then none else
  match l.dropWhile isLocalChar with
  | '@' :: r2 =>
    let b := r2.takeWhile isDomChar
    if b.isEmpty then none else
    match r2.dropWhile isDomChar with
    | '.' :: r4 =>
      let c := r4.takeWhile isTailChar
      if c.isEmpty then none else
      some (a ++ '@' :: (b ++ '.' :: c), r4.dropWhile isTailChar)
    | _ => none
  | _ => none

/-- Fuelled scan of `re.findall`: try a match at each position, skip one
character on failure, continue after the match on success. -/
def findAllAux : Nat → List Char → List (List Char)
  | 0, _ => []
  | _ + 1, [] => []
  | fuel + 1, c :: rest =>
    match matchEmailAt (c :: rest) with
    | some (m, r) => m :: findAllAux fuel r
    | none => findAllAux fuel rest

/-- `re.findall(r'[\w.+-]+@[\w-]+\.[\w.-]+', l)` as a list of matches. -/
def findAllL (l : List Char) : List (List Char) :=
  findAllAux l.length l

/-- Join with `';'`, Python `";".join(ms)`. -/
def joinSemi : List (List Char) → List Char
  | [] => []
  | [m] => m
  | m :: ms => m ++ ';' :: joinSemi ms

/-- The non-null branch of `extractEmails`: the `;`-join of all pattern
matches found in the cell. -/
def extractOne (s : String) : String :=
  String.mk (joinSemi (findAllL s.data))

/-- Source `extractEmails`: `None` in, `None` out; otherwise the `;`-join of
all pattern matches found in the cell. -/
def extractEmails (emailCol : Option String) : Option String :=
  match emailCol with
  | none => none
  | some s => some (extractOne s)

/-! ## `email.utils.parsedate_tz` (CPython 3.11 `email/_parseaddr.py`) -/

/-- Day names recognized by `_parsedate_tz`. -/
def pyDaynames : List (List Char) :=
  ["mon", "tue", "wed", "thu", "fri", "sat", "sun"].map String.data

/-- Month names recognized by `_parsedate_tz` (three-letter then full). -/
def pyMonthnames : List (List Char) :=
  ["jan", "feb", "mar", "apr", "may", "jun", "jul", "aug", "sep", "oct",
   "nov", "dec", "january", "february", "march", "april", "may", "june",
   "july", "august", "september", "october", "november", "december"].map String.data

/-- The `_timezones` table (offsets in the `hours*100` convention). -/
def pyTimezones : List (List Char × Int) :=
  [("UT", (0 : Int)), ("UTC", 0), ("GMT", 0), ("Z", 0),
   ("AST", -400), ("ADT", -300), ("EST", -500), ("EDT", -400),
   ("CST", -600), ("CDT", -500), ("MST", -700), ("MDT", -600),
   ("PST", -800), ("PDT", -700)].map (fun p => (p.1.data, p.2))

/-- `_timezones[tz]` lookup. -/
def tzLookup (tz : List Char) : Option Int :=
  (pyTimezones.find? (fun p => p.1 = tz)).map (fun p => p.2)

/-- Python `list.index` for token lists (callers check membership first, as the
source does). -/
def idxOfL (x : List Char) : List (List Char) → Nat
  | [] => 0
  | h :: t => if h = x then 0 else idxOfL x t + 1

/-- Result of `_parsedate_tz`: the fields of the 10-tuple
`[yy, mm, dd, thh, tmm, tss, 0, 1, -1, tzoffset]` that the script consumes
(the constant wday/yday/dst slots `0, 1, -1` are omitted).  `tzoffset` is the
offset in seconds, `none` for Python `None`. -/
structure DateTuple where
  yy : Int
  mm : Int
  dd : Int
  thh : Int
  tmm : Int
  tss : Int
  tzoffset : Option Int
deriving DecidableEq, Repr

/-- Timezone token to offset-in-seconds: the `tz.upper()` lookup / `int(tz)`
fallback, the `-0000` special case, and the `hours*100` to seconds
conversion guarded by `if tzoffset:` (so `0` is left unconverted). -/
def parseTzOffset (tz : List Char) : Option Int :=
  let tzU := upperL tz
  let tzoffset : Option Int :=
    match tzLookup tzU with
    | some v => some v
    | none =>
      match pyInt tzU with
      | some v => if v = 0 && startsWithL tzU ['-'] then none else some v
      | none => none
  match tzoffset with
  | none => none
  | some v =>
    if v = 0 then some 0
    else
      let sign : Int := if v < 0 then -1 else 1
      let a := if v < 0 then -v else v
      some (sign * ((a / 100) * 3600 + (a % 100) * 60))

/-- Split the time-of-day token on `:` (or, for the non-compliant one-piece
form, on `.`) into hour/minute/second strings; the missing-seconds cases
supply `0`. -/
def parseTimeParts (tm : List Char) : Option (List Char × List Char × List Char) :=
  match splitOnC ':' tm with
  | [thh, tmm] => some (thh, tmm, ['0'])
  | [thh, tmm, tss] => some (thh, tmm, tss)
  | [t0] =>
    if containsSub t0 ['.'] then
      match splitOnC '.' t0 with
      | [thh, tmm] => some (thh, tmm, ['0'])
      | [thh, tmm, tss] => some (thh, tmm, tss)
      | _ => none
    else none
  | _ => none

/-- Field-level tail of `_parsedate_tz`, from `[dd, mm, yy, tm, tz] = data`
on: emptiness check, month-name resolution with the day/month swap, trailing
commas, the year/time swap on a `:` in the year slot, the year/zone swap when
the year does not start with a digit, `int` conversions, and the two-digit
year adjustment. -/
def parseFields (dd0 mm0 yy0 tm0 tz0 : List Char) : Option DateTuple :=
  if dd0.isEmpty || mm0.isEmpty || yy0.isEmpty then none else
  let mmLow := lowerL mm0
  let ddmm : Option (List Char × List Char) :=
    if pyMonthnames.contains mmLow then some (dd0, mmLow)
    else if pyMonthnames.contains (lowerL dd0) then some (mmLow, lowerL dd0)
    else none
  match ddmm with
  | none => none
  | some (dd1, mmName) =>
    let mmIdx := idxOfL mmName pyMonthnames + 1
    let mmVal : Int := Int.ofNat (if mmIdx > 12 then mmIdx - 12 else mmIdx)
    let dd2 := if dd1.getLast? = some ',' then dd1.dropLast else dd1
    let yytm : List Char × List Char :=
      match findIdx? ':' yy0 with
      | some i => if i > 0 then (tm0, yy0) else (yy0, tm0)
      | none => (yy0, tm0)
    let yyRes : Option (List Char) :=
      if yytm.1.getLast? = some ',' then
        (if yytm.1.dropLast.isEmpty then none else some yytm.1.dropLast)
      else some yytm.1
    match yyRes with
    | none => none
    | some yy2 =>
      let yytz : List Char × List Char :=
        match yy2 with
        | c :: _ => if c.isDigit then (yy2, tz0) else (tz0, yy2)
        | [] => (yy2, tz0)
      let tm2 := if yytm.2.getLast? = some ',' then yytm.2.dropLast else yytm.2
      match parseTimeParts tm2 with
      | none => none
      | some (thhS, tmmS, tssS) =>
        match pyInt yytz.1, pyInt dd2, pyInt thhS, pyInt tmmS, pyInt tssS with
        | some yyV, some ddV, some thhV, some tmmV, some tssV =>
          let yyA := if yyV < 100 then (if yyV > 68 then yyV + 1900 else yyV + 2000) else yyV
          some { yy := yyA, mm := mmVal, dd := ddV, thh := thhV, tmm := tmmV,
                 tss := tssV, tzoffset := parseTzOffset yytz.2 }
        | _, _, _, _, _ => none

/-- CPython 3.11 `email._parseaddr._parsedate_tz`: whitespace tokenization,
day-name removal (or cut at the last comma), the RFC 850 `-`-separated date
fixup, the 4-token fixup splitting a trailing `time+zone` token (or appending
an empty zone), then the field-level parse of the first five tokens. -/
def pyParsedateTzCore (input : List Char) : Option DateTuple :=
  if input.isEmpty then none else
  match splitWs input with
  | [] => none
  | d0 :: drest =>
    let data1 :=
      if d0.getLast? = some ',' || pyDaynames.contains (lowerL d0) then drest
      else match rfindIdx? ',' d0 with
           | some i => (d0.drop (i + 1)) :: drest
           | none => d0 :: drest
    let data2 :=
      match data1 with
      | [x0, x1, x2] =>
        let stuff := splitOnC '-' x0
        if stuff.length = 3 then stuff ++ [x1, x2] else data1
      | _ => data1
    let data3 :=
      match data2 with
      | [x0, x1, x2, x3] =>
        let i := match findIdx? '+' x3 with
                 | some j => some j
                 | none => findIdx? '-' x3
        match i with
        | some j => if j > 0 then [x0, x1, x2, x3.take j, x3.drop j]
                    else [x0, x1, x2, x3, []]
        | none => [x0, x1, x2, x3, []]
      | _ => data2
    if data3.length < 5 then none else
    match data3.take 5 with
    | [dd, mm, yy, tm, tz] => parseFields dd mm yy tm tz
    | _ => none

/-- `email.utils.parsedate_tz`: wraps `_parsedate_tz`, replacing a `None`
offset (`-0000`, missing or unrecognized zone) by `0`. -/
def pyParsedateTz (input : List Char) : Option DateTuple :=
  match pyParsedateTzCore input with
  | none => none
  | some t => some { t with tzoffset := some (t.tzoffset.getD 0) }

/-! ## `datetime` construction, validation and epoch arithmetic -/

/-- Gregorian leap-year test. -/
def isLeapYear (y : Int) : Bool :=
  y % 4 = 0 && (y % 100 ≠ 0 || y % 400 = 0)

/-- Days in a month (callers validate `1 ≤ m ≤ 12` first). -/
def daysInMonth (y m : Int) : Int :=
  if m = 2 then (if isLeapYear y then 29 else 28)
  else if m = 4 || m = 6 || m = 9 || m = 11 then 30 else 31

/-- Days from 1970-01-01 to year/month/day in the proleptic Gregorian
calendar, for `1 ≤ y`, via the era decomposition. -/
def daysFromCivil (y m d : Nat) : Int :=
  let y1 := if m ≤ 2 then y - 1 else y
  let era := y1 / 400
  let yoe := y1 % 400
  let mp := if 2 < m then m - 3 else m + 9
  let doy := (153 * mp + 2) / 5 + (d - 1)
  let doe := yoe * 365 + yoe / 4 - yoe / 100 + doy
  (Int.ofNat (era * 146097 + doe)) - 719468

/-- `datetime(y, mo, d, h, mi, s)`: CPython field validation (with the C
implementation's messages, in its order), then the naive instant as seconds
relative to the epoch. -/
def mkDatetimeSecs (y mo d h mi s : Int) : Except PyErr Int :=
  if y < 1 || 9999 < y then
    .error (.valueError ("year " ++ toString y ++ " is out of range"))
  else if mo < 1 || 12 < mo then .error (.valueError "month must be in 1..12")
  else if d < 1 || daysInMonth y mo < d then
    .error (.valueError "day is out of range for month")
  else if h < 0 || 23 < h then .error (.valueError "hour must be in 0..23")
  else if mi < 0 || 59 < mi then .error (.valueError "minute must be in 0..59")
  else if s < 0 || 59 < s then .error (.valueError "second must be in 0..59")
  else .ok (daysFromCivil y.toNat mo.toNat d.toNat * 86400 + h * 3600 + mi * 60 + s)

/-- Epoch seconds of `datetime.min` (0001-01-01 00:00:00). -/
def minDatetimeSecs : Int := daysFromCivil 1 1 1 * 86400

/-- Epoch seconds of `datetime.max` truncated to seconds
(9999-12-31 23:59:59). -/
def maxDatetimeSecs : Int := daysFromCivil 9999 12 31 * 86400 + 86399

/-- Source `getDates`: parse with `parsedate_tz` (raising
`ValueError("Invalid RFC 2822 date format")` on `None`), build the naive
`datetime` from the first six tuple slots, subtract the offset as a
`timedelta` when `dt_tuple[9] is not None` (with the `timedelta` day-magnitude
bound and the datetime subtraction range check), mark the result as UTC and
return whole epoch milliseconds rendered as a string. -/
def getDates (dateCol : String) : Except PyErr String :=
  match pyParsedateTz dateCol.data with
  | none => .error .invalidDateFormat
  | some t =>
    match mkDatetimeSecs t.yy t.mm t.dd t.thh t.tmm t.tss with
    | .error e => .error e
    | .ok secs =>
      match t.tzoffset with
      | some off =>
        let days := Int.ediv off 86400
        if days < -999999999 || 999999999 < days then .error .overflowError
        else
          let secs2 := secs - off
          if secs2 < minDatetimeSecs || maxDatetimeSecs < secs2 then
            .error .overflowError
          else .ok (toString (secs2 * 1000))
      | none => .ok (toString (secs * 1000))

/-! ## Contact assignment and the per-record pipeline -/

/-- The hardcoded own-domain marker of `getNonDomainEmails`. -/
def markerL : List Char := "insidemaps".data

/-- Candidate list of `getNonDomainEmails` on non-null normalized fields: the
whole `from` string (unsplit) when it lacks the marker, then the `;`-split
`to` addresses lacking the marker, then likewise for `cc` when present, each
appended after `rstrip()`. -/
def gndCore (f t : List Char) (cc : Option (List Char)) : List (List Char) :=
  (if containsSub f markerL then [] else [rstripL f])
  ++ ((splitOnC ';' t).filter (fun a => !containsSub a markerL)).map rstripL
  ++ (match cc with
      | none => []
      | some c => ((splitOnC ';' c).filter (fun a => !containsSub a markerL)).map rstripL)

/-- Source `getNonDomainEmails` on the mapped (possibly null) columns.  A null
`fromData` makes `'insidemaps' not in fromData` raise `TypeError`; a null
`toData` makes `toData.split(";")` raise `AttributeError`; a null `ccData` is
caught by the `pd.isnull` guard and contributes nothing. -/
def getNonDomainEmails (fromData toData ccData : Option String) :
    Except PyErr (List String) :=
  match fromData with
  | none => .error .typeError
  | some f =>
    match toData with
    | none => .error .attributeError
    | some t => .ok ((gndCore f.data t.data (ccData.map String.data)).map String.mk)

/-- The `X-Gmail-Labels` rewrite: `'Incoming' if 'Inbox' in x else 'Outgoing'`. -/
def mapLabels (x : String) : String :=
  if containsSub x.data "Inbox".data then "Incoming" else "Outgoing"

/-- One input row, with the spec's RawRecord invariant (`from` and `date`
always present, `to`/`cc`/`body` possibly null). -/
structure RawRecord where
  labels : String
  date : String
  fromF : String
  toF : Option String
  cc : Option String
  subject : String
  body : Option String
deriving DecidableEq, Repr

/-- One row of the output CSV. -/
structure OutputRow where
  labels : String
  date : String
  fromF : Option String
  toF : Option String
  cc : Option String
  subject : String
  body : Option String
  assignedTo : String
deriving DecidableEq, Repr

/-- Per-record slice of `main`'s column pipeline: rewrite the label, convert
the date, extract emails from `To`/`From`/`Cc`, build the assigned-contact
list, explode it into one row per contact (a record with an empty list yields
a `NaN` row that the final `notna` filter drops, hence no rows), and decode
the subject.  `decodeSubj` abstracts `str(make_header(decode_header(x)))`,
which is applied identically to every exploded copy of the record. -/
def recordOutputRows (decodeSubj : String → String) (r : RawRecord) :
    Except PyErr (List OutputRow) :=
  match getDates r.date with
  | .error e => .error e
  | .ok d =>
    let toE := extractEmails r.toF
    let fromE := extractEmails (some r.fromF)
    let ccE := extractEmails r.cc
    match getNonDomainEmails fromE toE ccE with
    | .error e => .error e
    | .ok contacts =>
      .ok (contacts.map (fun a =>
        { labels := mapLabels r.labels, date := d, fromF := fromE, toF := toE,
          cc := ccE, subject := decodeSubj r.subject, body := r.body,
          assignedTo := a }))

/-! ## List helper lemmas -/

theorem memTakeWhile {p : Char → Bool} : ∀ {l : List Char} {x : Char},
    x ∈ l.takeWhile p → p x = true := by
  intro l
  induction l with
  | nil => intro x h; simp [List.takeWhile] at h
  | cons c t ih =>
    intro x h
    by_cases hc : p c
    · rw [List.takeWhile_cons_of_pos hc] at h
      rcases List.mem_cons.mp h with h1 | h2
      · rwa [h1]
      · exact ih h2
    · rw [List.takeWhile_cons_of_neg hc] at h
      simp at h

theorem headDropWhile {p : Char → Bool} : ∀ {l : List Char} {h : Char} {t : List Char},
    l.dropWhile p = h :: t → p h = false := by
  intro l
  induction l with
  | nil => intro h t hyp; simp [List.dropWhile] at hyp
  | cons c rest ih =>
    intro h t hyp
    by_cases hc : p c
    · rw [List.dropWhile_cons_of_pos hc] at hyp
      exact ih hyp
    · rw [List.dropWhile_cons_of_neg hc] at hyp
      cases hyp
      simpa using hc

theorem takeWhileAllApp {p : Char → Bool} {xs : List Char} (ys : List Char)
    (h : ∀ x ∈ xs, p x = true) :
    (xs ++ ys).takeWhile p = xs ++ ys.takeWhile p := by
  induction xs with
  | nil => simp
  | cons c t ih =>
    have hc : p c = true := h c (List.mem_cons_self c t)
    simp only [List.cons_append, List.takeWhile_cons_of_pos hc]
    rw [ih (fun x hx => h x (List.mem_cons_of_mem c hx))]

theorem dropWhileAllApp {p : Char → Bool} {xs : List Char} (ys : List Char)
    (h : ∀ x ∈ xs, p x = true) :
    (xs ++ ys).dropWhile p = ys.dropWhile p := by
  induction xs with
  | nil => simp
  | cons c t ih =>
    have hc : p c = true := h c (List.mem_cons_self c t)
    simp only [List.cons_append, List.dropWhile_cons_of_pos hc]
    exact ih (fun x hx => h x (List.mem_cons_of_mem c hx))

/-! ## Characterization of the anchored email match -/

theorem matchEmailAt_some_iff {l m r : List Char} :
    matchEmailAt l = some (m, r) ↔
    ∃ a b c : List Char,
      m = a ++ '@' :: (b ++ '.' :: c) ∧
      l = a ++ '@' :: (b ++ '.' :: (c ++ r)) ∧
      a ≠ [] ∧ b ≠ [] ∧ c ≠ [] ∧
      (∀ x ∈ a, isLocalChar x = true) ∧
      (∀ x ∈ b, isDomChar x = true) ∧
      (∀ x ∈ c, isTailChar x = true) ∧
      (∀ h t, r = h :: t → isTailChar h = false) := by
  constructor
  · intro hm
    unfold matchEmailAt at hm
    simp only at hm
    split at hm
    · exact absurd hm (by simp)
    · rename_i hA
      split at hm
      · rename_i r2 hdropA
        split at hm
        · exact absurd hm (by simp)
        · rename_i hB
          split at hm
          · rename_i r4 hdropB
            split at hm
            · exact absurd hm (by simp)
            · rename_i hC
              refine ⟨l.takeWhile isLocalChar, r2.takeWhile isDomChar,
                      r4.takeWhile isTailChar, ?_, ?_, ?_, ?_, ?_, ?_, ?_, ?_, ?_⟩
              · exact (Prod.mk.injEq _ _ _ _ ▸ (Option.some.injEq _ _ ▸ hm)).1.symm
              · have hr : r = r4.dropWhile isTailChar :=
                  ((Prod.mk.injEq _ _ _ _ ▸ (Option.some.injEq _ _ ▸ hm)).2).symm
                calc l = l.takeWhile isLocalChar ++ l.dropWhile isLocalChar :=
                      (List.takeWhile_append_dropWhile isLocalChar l).symm
                  _ = l.takeWhile isLocalChar ++ ('@' :: r2) := by rw [hdropA]
                  _ = l.takeWhile isLocalChar
                        ++ ('@' :: (r2.takeWhile isDomChar ++ r2.dropWhile isDomChar)) := by
                      rw [List.takeWhile_append_dropWhile]
                  _ = l.takeWhile isLocalChar
                        ++ ('@' :: (r2.takeWhile isDomChar ++ ('.' :: r4))) := by rw [hdropB]
                  _ = l.takeWhile isLocalChar
                        ++ ('@' :: (r2.takeWhile isDomChar
                            ++ ('.' :: (r4.takeWhile isTailChar ++ r4.dropWhile isTailChar)))) := by
                      rw [List.takeWhile_append_dropWhile]
                  _ = l.takeWhile isLocalChar
                        ++ ('@' :: (r2.takeWhile isDomChar
                            ++ ('.' :: (r4.takeWhile isTailChar ++ r)))) := by rw [hr]
              · simpa using hA
              · simpa using hB
              · simpa using hC
              · exact fun x hx => memTakeWhile hx
              · exact fun x hx => memTakeWhile hx
              · exact fun x hx => memTakeWhile hx
              · intro h t hrt
                have hr : r = r4.dropWhile isTailChar :=
                  ((Prod.mk.injEq _ _ _ _ ▸ (Option.some.injEq _ _ ▸ hm)).2).symm
                exact headDropWhile (hr ▸ hrt)
          · exact absurd hm (by simp)
      · exact absurd hm (by simp)
  · rintro ⟨a, b, c, hmEq, hlEq, ha, hb, hc, hAll, hBall, hCall, hrHead⟩
    have hAat : isLocalChar '@' = false := by decide
    have hBdot : isDomChar '.' = false := by decide
    have htwA : l.takeWhile isLocalChar = a := by
      rw [hlEq, takeWhileAllApp _ hAll, List.takeWhile_cons_of_neg (by simp [hAat])]
      simp
    have hdwA : l.dropWhile isLocalChar = '@' :: (b ++ '.' :: (c ++ r)) := by
      rw [hlEq, dropWhileAllApp _ hAll, List.dropWhile_cons_of_neg (by simp [hAat])]
    have htwB : (b ++ '.' :: (c ++ r)).takeWhile isDomChar = b := by
      rw [takeWhileAllApp _ hBall, List.takeWhile_cons_of_neg (by simp [hBdot])]
      simp
    have hdwB : (b ++ '.' :: (c ++ r)).dropWhile isDomChar = '.' :: (c ++ r) := by
      rw [dropWhileAllApp _ hBall, List.dropWhile_cons_of_neg (by simp [hBdot])]
    have htwC : (c ++ r).takeWhile isTailChar = c := by
      rw [takeWhileAllApp _ hCall]
      cases r with
      | nil => simp
      | cons h t =>
        rw [List.takeWhile_cons_of_neg (by simp [hrHead h t rfl])]
        simp
    have hdwC : (c ++ r).dropWhile isTailChar = r := by
      rw [dropWhileAllApp _ hCall]
      cases r with
      | nil => simp [List.dropWhile]
      | cons h t => rw [List.dropWhile_cons_of_neg (by simp [hrHead h t rfl])]
    unfold matchEmailAt
    simp only [htwA, hdwA, htwB, hdwB, htwC, hdwC]
    rw [if_neg (by simpa using ha), if_neg (by simpa using hb), if_neg (by simpa using hc)]
    rw [hmEq]

theorem matchEmailAt_canon {l m r : List Char} (h : matchEmailAt l = some (m, r)) :
    matchEmailAt m = some (m, []) := by
  rcases matchEmailAt_some_iff.mp h with
    ⟨a, b, c, hmEq, _, ha, hb, hc, hAll, hBall, hCall, _⟩
  exact matchEmailAt_some_iff.mpr
    ⟨a, b, c, hmEq, by simpa using hmEq, ha, hb, hc, hAll, hBall, hCall,
     fun h t ht => by cases ht⟩

theorem matchEmailAt_extend {m r : List Char} (h : matchEmailAt m = some (m, []))
    (hr : r = [] ∨ ∃ h0 t0, r = h0 :: t0 ∧ isTailChar h0 = false) :
    matchEmailAt (m ++ r) = some (m, r) := by
  rcases matchEmailAt_some_iff.mp h with
    ⟨a, b, c, hmEq, _, ha, hb, hc, hAll, hBall, hCall, _⟩
  refine matchEmailAt_some_iff.mpr ⟨a, b, c, hmEq, ?_, ha, hb, hc, hAll, hBall, hCall, ?_⟩
  · rw [hmEq]; simp
  · intro h0 t0 ht
    rcases hr with h1 | ⟨h1, t1, heq, hf⟩
    · rw [h1] at ht; cases ht
    · rw [heq] at ht
      cases ht
      exact hf

theorem matchEmailAt_length {l m r : List Char} (h : matchEmailAt l = some (m, r)) :
    l.length = m.length + r.length ∧ m ≠ [] := by
  rcases matchEmailAt_some_iff.mp h with ⟨a, b, c, hmEq, hlEq, ha, _, _, _, _, _, _⟩
  constructor
  · rw [hmEq, hlEq]; simp; omega
  · rw [hmEq]
    cases a with
    | nil => exact absurd rfl ha
    | cons x xs => simp

theorem matchEmailAt_cons_none {h : Char} {t : List Char} (hh : isLocalChar h = false) :
    matchEmailAt (h :: t) = none := by
  unfold matchEmailAt
  rw [List.takeWhile_cons_of_neg (by simp [hh])]
  simp

theorem findAllAux_nil : ∀ fuel, findAllAux fuel [] = [] := by
  intro fuel
  cases fuel <;> rfl

theorem findAllAux_fuel : ∀ (f1 f2 : Nat) (l : List Char),
    l.length ≤ f1 → l.length ≤ f2 → findAllAux f1 l = findAllAux f2 l := by
  intro f1
  induction f1 with
  | zero =>
    intro f2 l h1 _
    have : l = [] := List.length_eq_zero.mp (Nat.le_zero.mp h1)
    rw [this, findAllAux_nil, findAllAux_nil]
  | succ f ih =>
    intro f2 l h1 h2
    cases l with
    | nil => rw [findAllAux_nil, findAllAux_nil]
    | cons c rest =>
      cases f2 with
      | zero => simp at h2
      | succ f2' =>
        cases hm : matchEmailAt (c :: rest) with
        | none =>
          simp only [findAllAux, hm]
          exact ih f2' rest (by simpa using h1) (by simpa using h2)
        | some p =>
          rcases p with ⟨m, r⟩
          rcases matchEmailAt_length hm with ⟨hlen, hne⟩
          have hmpos : 1 ≤ m.length := by
            cases m with
            | nil => exact absurd rfl hne
            | cons x xs => simp
          have hr1 : r.length ≤ f := by simp at h1 hlen; omega
          have hr2 : r.length ≤ f2' := by simp at h2 hlen; omega
          simp only [findAllAux, hm]
          rw [ih f2' r hr1 hr2]

theorem findAllL_canon {l : List Char} :
    ∀ m ∈ findAllL l, matchEmailAt m = some (m, []) := by
  unfold findAllL
  generalize hf : l.length = fuel
  clear hf
  induction fuel generalizing l with
  | zero => simp [findAllAux]
  | succ f ih =>
    cases l with
    | nil => simp [findAllAux]
    | cons c rest =>
      simp only [findAllAux]
      cases hm : matchEmailAt (c :: rest) with
      | none => exact ih
      | some p =>
        rcases p with ⟨m0, r⟩
        intro m hmem
        rcases List.mem_cons.mp hmem with h1 | h2
        · rw [h1]; exact matchEmailAt_canon hm
        · exact ih m h2

theorem findAllL_joinSemi {ms : List (List Char)}
    (h : ∀ m ∈ ms, matchEmailAt m = some (m, [])) :
    findAllL (joinSemi ms) = ms := by
  induction ms with
  | nil => rfl
  | cons m ms ih =>
    have hm : matchEmailAt m = some (m, []) := h m (List.mem_cons_self m ms)
    have hmne : m ≠ [] := (matchEmailAt_length hm).2
    cases ms with
    | nil =>
      show findAllL (joinSemi [m]) = [m]
      have : joinSemi [m] = m := rfl
      rw [this]
      unfold findAllL
      cases m with
      | nil => exact absurd rfl hmne
      | cons c rest =>
        simp only [List.length_cons, findAllAux, hm]
        rw [findAllAux_nil]
    | cons m2 ms2 =>
      have hJ : joinSemi (m :: m2 :: ms2) = m ++ ';' :: joinSemi (m2 :: ms2) := rfl
      rw [hJ]
      have hsemi : isTailChar ';' = false := by decide
      have hext : matchEmailAt (m ++ ';' :: joinSemi (m2 :: ms2))
          = some (m, ';' :: joinSemi (m2 :: ms2)) :=
        matchEmailAt_extend hm (Or.inr ⟨';', joinSemi (m2 :: ms2), rfl, hsemi⟩)
      unfold findAllL
      set J := joinSemi (m2 :: ms2) with hJdef
      cases m with
      | nil => exact absurd rfl hmne
      | cons c mr =>
        have hext' : matchEmailAt (c :: (mr ++ ';' :: J)) = some (c :: mr, ';' :: J) := by
          simpa using hext
        have hlen : ((c :: mr) ++ ';' :: J).length = (mr.length + 1 + J.length) + 1 := by
          simp; omega
        rw [hlen]
        simp only [List.cons_append, findAllAux, List.append_eq, hext']
        have hfuel : findAllAux (mr.length + 1 + J.length) (';' :: J)
            = findAllAux (J.length + 1) (';' :: J) :=
          findAllAux_fuel _ _ _ (by simp; omega) (by simp)
        rw [hfuel]
        simp only [findAllAux]
        rw [matchEmailAt_cons_none (by decide)]
        have : findAllAux J.length J = findAllL J := rfl
        rw [this, hJdef]
        rw [ih (fun x hx => h x (List.mem_cons_of_mem (c :: mr) hx))]

/-! ## Trailing-whitespace trimming versus the marker test

The own-domain marker contains no whitespace, so testing a candidate for the
marker before or after `rstrip()` gives the same answer; this is what makes
the source's order of operations agree with the spec's "trimmed before
comparison and inclusion" reading. -/

theorem rstripL_decomp (l : List Char) :
    l = rstripL l ++ (l.reverse.takeWhile isPySpace).reverse := by
  unfold rstripL
  rw [← List.reverse_append, List.takeWhile_append_dropWhile, List.reverse_reverse]

theorem rstripL_suffix_space (l : List Char) :
    ∀ c ∈ (l.reverse.takeWhile isPySpace).reverse, isPySpace c = true := by
  intro c hc
  exact memTakeWhile (List.mem_reverse.mp hc)

theorem startsWith_app_space {m : List Char} (hm : ∀ c ∈ m, isPySpace c = false)
    {w : List Char} (hw : ∀ c ∈ w, isPySpace c = true) :
    ∀ r : List Char, startsWithL (r ++ w) m = startsWithL r m := by
  induction m with
  | nil => intro r; cases r ++ w <;> cases r <;> rfl
  | cons b bs ih =>
    intro r
    cases r with
    | nil =>
      simp only [List.nil_append]
      cases w with
      | nil => rfl
      | cons c w2 =>
        have hc : isPySpace c = true := hw c (List.mem_cons_self c w2)
        have hb : isPySpace b = false := hm b (List.mem_cons_self b bs)
        have hne : (c = b) = False := by
          by_contra hcb
          simp at hcb
          rw [hcb, hb] at hc
          cases hc
        show (decide (c = b) && startsWithL w2 bs) = startsWithL [] (b :: bs)
        simp [hne]
        rfl
    | cons a as =>
      show (decide (a = b) && startsWithL (as ++ w) bs)
          = (decide (a = b) && startsWithL as bs)
      rw [ih (fun c hc => hm c (List.mem_cons_of_mem b hc)) as]

theorem contains_space_false {w : List Char} (hw : ∀ c ∈ w, isPySpace c = true)
    {b : Char} (hb : isPySpace b = false) (bs : List Char) :
    containsSub w (b :: bs) = false := by
  induction w with
  | nil => rfl
  | cons c w2 ih =>
    have hc : isPySpace c = true := hw c (List.mem_cons_self c w2)
    have hne : (c = b) = False := by
      by_contra hcb
      simp at hcb
      rw [hcb, hb] at hc
      cases hc
    show (startsWithL (c :: w2) (b :: bs) || containsSub w2 (b :: bs)) = false
    have h1 : startsWithL (c :: w2) (b :: bs) = false := by
      show (decide (c = b) && startsWithL w2 bs) = false
      simp [hne]
    rw [h1, ih (fun x hx => hw x (List.mem_cons_of_mem c hx))]
    rfl

theorem contains_app_space {m : List Char} (hne : m ≠ [])
    (hm : ∀ c ∈ m, isPySpace c = false)
    {w : List Char} (hw : ∀ c ∈ w, isPySpace c = true) :
    ∀ r : List Char, containsSub (r ++ w) m = containsSub r m := by
  intro r
  induction r with
  | nil =>
    cases m with
    | nil => exact absurd rfl hne
    | cons b bs =>
      simp only [List.nil_append]
      rw [contains_space_false hw (hm b (List.mem_cons_self b bs)) bs]
      rfl
  | cons c r2 ih =>
    show (startsWithL (c :: (r2 ++ w)) m || containsSub (r2 ++ w) m)
        = (startsWithL (c :: r2) m || containsSub r2 m)
    have h1 : startsWithL ((c :: r2) ++ w) m = startsWithL (c :: r2) m :=
      startsWith_app_space hm hw (c :: r2)
    simp only [List.cons_append] at h1
    rw [h1, ih]

theorem contains_rstrip {m : List Char} (hne : m ≠ [])
    (hm : ∀ c ∈ m, isPySpace c = false) (l : List Char) :
    containsSub (rstripL l) m = containsSub l m := by
  conv_rhs => rw [rstripL_decomp l]
  exact (contains_app_space hne hm (rstripL_suffix_space l) (rstripL l)).symm

theorem marker_nonspace : ∀ c ∈ markerL, isPySpace c = false := by decide

theorem marker_ne_nil : markerL ≠ [] := by decide

theorem contains_marker_rstrip (l : List Char) :
    containsSub (rstripL l) markerL = containsSub l markerL :=
  contains_rstrip marker_ne_nil marker_nonspace l

theorem filter_marker_map_rstrip (l : List (List Char)) :
    ((l.map rstripL).filter (fun a => !containsSub a markerL))
      = ((l.filter (fun a => !containsSub a markerL)).map rstripL) := by
  induction l with
  | nil => rfl
  | cons x xs ih =>
    simp only [List.map_cons, List.filter_cons]
    rw [contains_marker_rstrip x]
    cases hx : containsSub x markerL with
    | false => simp only [Bool.not_false, if_pos trivial, List.map_cons, ih]
    | true => simp only [Bool.not_true, ih]; rfl

/-- The assigned-contacts list as the spec states it: gather the normalized
`from` string, the `;`-split `to` addresses and (when `cc` is non-null) the
`;`-split `cc` addresses, trim each candidate of trailing whitespace, and
keep those not containing the own-domain marker as a substring, in order of
appearance and without deduplication. -/
def specAssignedContacts (fromN toN : String) (ccN : Option String) : List String :=
  ((([fromN.data] ++ splitOnC ';' toN.data
      ++ (match ccN with
          | none => []
          | some c => splitOnC ';' c.data)).map rstripL).filter
    (fun a => !containsSub a markerL)).map String.mk

theorem gndCore_eq_spec (fd td : List Char) (ccd : Option (List Char)) :
    gndCore fd td ccd
      = (([fd] ++ splitOnC ';' td
          ++ (match ccd with
              | none => []
              | some c => splitOnC ';' c)).map rstripL).filter
          (fun a => !containsSub a markerL) := by
  unfold gndCore
  simp only [List.map_append, List.filter_append]
  congr 1
  congr 1
  · -- the `from` candidate
    simp only [List.map_cons, List.map_nil, List.filter_cons, List.filter_nil]
    rw [contains_marker_rstrip fd]
    cases hf : containsSub fd markerL with
    | false => simp
    | true => simp
  · exact (filter_marker_map_rstrip (splitOnC ';' td)).symm
  · cases ccd with
    | none => rfl
    | some c => exact (filter_marker_map_rstrip (splitOnC ';' c)).symm

theorem gnd_eq_spec (f t : String) (cc : Option String) :
    getNonDomainEmails (some f) (some t) cc = .ok (specAssignedContacts f t cc) := by
  cases cc with
  | none =>
    show Except.ok ((gndCore f.data t.data none).map String.mk)
        = .ok (specAssignedContacts f t none)
    rw [gndCore_eq_spec]
    rfl
  | some c =>
    show Except.ok ((gndCore f.data t.data (some c.data)).map String.mk)
        = .ok (specAssignedContacts f t (some c))
    rw [gndCore_eq_spec]
    rfl

/-! ## Claim C4 -/

theorem mkDatetimeSecs_error_shape {y mo d h mi s : Int} {e : PyErr}
    (hm : mkDatetimeSecs y mo d h mi s = .error e) : ∃ msg, e = .valueError msg := by
  unfold mkDatetimeSecs at hm
  split_ifs at hm
  all_goals exact ⟨_, (Except.error.inj hm).symm⟩

/-- C4, counterexample: `"Fri, 15 Dec 2023 25:40:42 +0000"` is parsed by the
RFC-2822 parser (hour `25` fits the 2DIGIT grammar and `parsedate_tz` accepts
it), yet `getDates` raises an error on it — the `datetime` range error, which
is not the InvalidDateFormat failure.  This refutes "for parseable input no
error is raised". -/
theorem c4_counterexample :
    pyParsedateTzCore "Fri, 15 Dec 2023 25:40:42 +0000".data ≠ none
    ∧ getDates "Fri, 15 Dec 2023 25:40:42 +0000"
        = .error (.valueError "hour must be in 0..23")
    ∧ PyErr.valueError "hour must be in 0..23" ≠ .invalidDateFormat :=
  ⟨by decide, by rfl, by decide⟩

/-- C4, amended: `getDates` fails with the InvalidDateFormat error if and only
if its input cannot be parsed by the RFC-2822 parser (`parsedate_tz` returns
`None`), and the failure is raised unconditionally for such input; for
parseable input no InvalidDateFormat error is raised, but a different
`ValueError`/`OverflowError` can still occur when a parsed component is out of
range for `datetime` (e.g. hour 25). -/
theorem c4_amended_theorem (s : String) :
    getDates s = .error .invalidDateFormat ↔ pyParsedateTz s.data = none := by
  unfold getDates
  cases hp : pyParsedateTz s.data with
  | none => simp
  | some t =>
    simp only
    cases hm : mkDatetimeSecs t.yy t.mm t.dd t.thh t.tmm t.tss with
    | error e =>
      rcases mkDatetimeSecs_error_shape hm with ⟨msg, rfl⟩
      simp
    | ok secs =>
      cases hz : t.tzoffset with
      | none => simp
      | some off =>
        simp only
        split_ifs <;> simp

/-! ## Claim C3 -/

/-- C3: for every date string the RFC-2822 parser accepts, `getDates`
subtracts the timezone offset from the naive date-time when one is present
(`tzoffset = some v`) and leaves the naive value unchanged when none is
(`tzoffset = none`, so `getD 0` contributes nothing), and returns the UTC
instant as whole milliseconds since the Unix epoch rendered as a string.  The
hypotheses confine the parsed fields to the range `datetime` accepts, which is
where the source reaches the return statement. -/
theorem c3_theorem (s : String) (t : DateTuple) (secs : Int)
    (hp : pyParsedateTzCore s.data = some t)
    (hs : mkDatetimeSecs t.yy t.mm t.dd t.thh t.tmm t.tss = .ok secs)
    (hb : -999999999 ≤ Int.ediv (t.tzoffset.getD 0) 86400
          ∧ Int.ediv (t.tzoffset.getD 0) 86400 ≤ 999999999)
    (hr : minDatetimeSecs ≤ secs - t.tzoffset.getD 0
          ∧ secs - t.tzoffset.getD 0 ≤ maxDatetimeSecs) :
    getDates s = .ok (toString ((secs - t.tzoffset.getD 0) * 1000)) := by
  obtain ⟨yy, mm, dd, thh, tmm, tss, tz⟩ := t
  simp only at hs hb hr
  unfold getDates pyParsedateTz
  rw [hp]
  simp only
  rw [hs]
  simp only
  cases tz with
  | none =>
    simp only [Option.getD] at hb hr ⊢
    split_ifs with h1 h2
    · exfalso; simp only [Bool.or_eq_true, decide_eq_true_eq] at h1; omega
    · exfalso; simp only [Bool.or_eq_true, decide_eq_true_eq] at h2; omega
    · norm_num
  | some v =>
    simp only [Option.getD] at hb hr ⊢
    split_ifs with h1 h2
    · exfalso; simp only [Bool.or_eq_true, decide_eq_true_eq] at h1; omega
    · exfalso; simp only [Bool.or_eq_true, decide_eq_true_eq] at h2; omega
    · rfl

/-- C3, witness: the round-trip example of the claim,
`getDates("Fri, 15 Dec 2023 16:40:42 +0000") = "1702658442000"`. -/
theorem c3_witness : getDates "Fri, 15 Dec 2023 16:40:42 +0000" = .ok "1702658442000" := by
  have h := c3_theorem "Fri, 15 Dec 2023 16:40:42 +0000"
    { yy := 2023, mm := 12, dd := 15, thh := 16, tmm := 40, tss := 42, tzoffset := some 0 }
    1702658442 (by rfl) (by rfl) (by decide) (by decide)
  exact h.trans (by rfl)

/-! ## Claims C2 and C1 -/

/-- C2: for every RawRecord whose normalization reaches contact assignment
(`to` non-null, as required for `toData.split` to run), the assigned-contacts
list is exactly the spec-side list: the normalized `from` address when it does
not contain the own-domain marker, then each `;`-split address of normalized
`to` not containing the marker, then each `;`-split address of normalized `cc`
(only when `cc` is non-null) not containing the marker, each trimmed of
trailing whitespace, in order and without deduplication; and the claim's
example evaluates to `["y@external.com"]`. -/
theorem c2_theorem :
    (∀ (r : RawRecord) (t : String), r.toF = some t →
      getNonDomainEmails (extractEmails (some r.fromF)) (extractEmails r.toF)
          (extractEmails r.cc)
        = .ok (specAssignedContacts (extractOne r.fromF) (extractOne t)
                (r.cc.map extractOne)))
    ∧ getNonDomainEmails (some "x@insidemaps.com")
        (some "y@external.com;z@insidemaps.com") none = .ok ["y@external.com"] := by
  constructor
  · intro r t ht
    rw [ht]
    have hcc : extractEmails r.cc = r.cc.map extractOne := by
      cases r.cc <;> rfl
    rw [hcc]
    exact gnd_eq_spec (extractOne r.fromF) (extractOne t) (r.cc.map extractOne)
  · rfl

/-- C2, witness: the record-level statement applied to a concrete record. -/
theorem c2_witness :
    getNonDomainEmails (extractEmails (some "a@b.com"))
        (extractEmails (some "y@external.com;z@insidemaps.com")) (extractEmails none)
      = .ok (specAssignedContacts (extractOne "a@b.com")
              (extractOne "y@external.com;z@insidemaps.com") none) :=
  c2_theorem.1
    { labels := "Inbox", date := "Fri, 15 Dec 2023 16:40:42 +0000",
      fromF := "a@b.com", toF := some "y@external.com;z@insidemaps.com",
      cc := none, subject := "s", body := none }
    "y@external.com;z@insidemaps.com" rfl

/-- C1, counterexample: a record with a null `to` field (and a valid date and
`from`) does not normalize without failure — `getNonDomainEmails` receives a
null `toData` and `toData.split(";")` raises `AttributeError`, so the claim
that a null `to` is propagated as empty/absent and never treated as an error
is false. -/
theorem c1_counterexample :
    recordOutputRows id
      { labels := "Inbox", date := "Fri, 15 Dec 2023 16:40:42 +0000",
        fromF := "a@b.com", toF := none, cc := none,
        subject := "s", body := none }
      = .error .attributeError := by rfl

/-- C1, amended: a null `cc` field is propagated as absent and never treated
as an error — contact assignment succeeds and `cc` contributes no candidates
(the result is exactly the spec-side list built from `from` and `to` alone),
and a record with null `cc` normalizes to rows whenever its date parses and
its `to` is present; but a null `to` field is treated as an error: contact
assignment fails with `AttributeError` from `None.split(";")`. -/
theorem c1_amended_theorem :
    (∀ f t : String,
      getNonDomainEmails (some f) (some t) none = .ok (specAssignedContacts f t none))
    ∧ (∀ (f : String) (cc : Option String),
      getNonDomainEmails (some f) none cc = .error .attributeError)
    ∧ (∀ (ds : String → String) (r : RawRecord) (d : String) (t : String),
        getDates r.date = .ok d → r.toF = some t → r.cc = none →
        ∃ rows, recordOutputRows ds r = .ok rows) := by
  refine ⟨fun f t => gnd_eq_spec f t none, fun f cc => rfl, ?_⟩
  intro ds r d t hd ht hcc
  have hg := gnd_eq_spec (extractOne r.fromF) (extractOne t) none
  refine ⟨(specAssignedContacts (extractOne r.fromF) (extractOne t) none).map
      (fun a => { labels := mapLabels r.labels, date := d,
                  fromF := some (extractOne r.fromF), toF := some (extractOne t),
                  cc := none, subject := ds r.subject, body := r.body,
                  assignedTo := a }), ?_⟩
  simp only [recordOutputRows, hd, ht, hcc, extractEmails]
  rw [hg]

/-- C1, witness: the amended statement's record-level part at a concrete
record with null `cc`. -/
theorem c1_witness :
    ∃ rows, recordOutputRows id
      { labels := "Inbox", date := "Fri, 15 Dec 2023 16:40:42 +0000",
        fromF := "a@b.com", toF := some "c@d.com", cc := none,
        subject := "s", body := none } = .ok rows :=
  c1_amended_theorem.2.2 id
    { labels := "Inbox", date := "Fri, 15 Dec 2023 16:40:42 +0000",
      fromF := "a@b.com", toF := some "c@d.com", cc := none,
      subject := "s", body := none }
    "1702658442000" "c@d.com" (by rfl) rfl rfl

/-! ## Claim C5 -/

/-- C5: a record whose assigned-contacts list has N entries (N ≥ 1) yields
exactly N output rows; the rows' Activity-Assigned-To values are the N
assigned contacts in order, and any two rows agree on every other field
(X-Gmail-Labels, Date, From, To, Cc, Subject, Body). -/
theorem c5_theorem (ds : String → String) (r : RawRecord) (d : String)
    (cs : List String)
    (hd : getDates r.date = .ok d)
    (hc : getNonDomainEmails (extractEmails (some r.fromF)) (extractEmails r.toF)
            (extractEmails r.cc) = .ok cs)
    (hn : 1 ≤ cs.length) :
    ∃ rows, recordOutputRows ds r = .ok rows ∧ rows.length = cs.length
      ∧ rows.map (fun o => o.assignedTo) = cs
      ∧ ∀ o1 ∈ rows, ∀ o2 ∈ rows,
          o1.labels = o2.labels ∧ o1.date = o2.date ∧ o1.fromF = o2.fromF
          ∧ o1.toF = o2.toF ∧ o1.cc = o2.cc ∧ o1.subject = o2.subject
          ∧ o1.body = o2.body := by
  refine ⟨cs.map (fun a => { labels := mapLabels r.labels, date := d,
                             fromF := extractEmails (some r.fromF),
                             toF := extractEmails r.toF,
                             cc := extractEmails r.cc,
                             subject := ds r.subject, body := r.body,
                             assignedTo := a }), ?_, ?_, ?_, ?_⟩
  · simp only [recordOutputRows, hd, hc]
  · simp
  · simp only [List.map_map]
    calc List.map ((fun o : OutputRow => o.assignedTo) ∘ fun a : String =>
          { labels := mapLabels r.labels, date := d,
            fromF := extractEmails (some r.fromF), toF := extractEmails r.toF,
            cc := extractEmails r.cc, subject := ds r.subject, body := r.body,
            assignedTo := a }) cs
        = List.map (fun a : String => a) cs := List.map_congr_left (fun a _ => rfl)
      _ = cs := List.map_id' cs
  · intro o1 h1 o2 h2
    rcases List.mem_map.mp h1 with ⟨a1, _, rfl⟩
    rcases List.mem_map.mp h2 with ⟨a2, _, rfl⟩
    exact ⟨rfl, rfl, rfl, rfl, rfl, rfl, rfl⟩

/-- C5, witness: a record with three qualifying addresses across from/to/cc
yields three rows. -/
theorem c5_witness :
    ∃ rows, recordOutputRows id
      { labels := "Inbox,Important", date := "Fri, 15 Dec 2023 16:40:42 +0000",
        fromF := "a@b.com", toF := some "c@d.com", cc := some "e@f.com",
        subject := "hi", body := some "b" } = .ok rows
      ∧ rows.length = (["a@b.com", "c@d.com", "e@f.com"] : List String).length
      ∧ rows.map (fun o => o.assignedTo) = ["a@b.com", "c@d.com", "e@f.com"]
      ∧ ∀ o1 ∈ rows, ∀ o2 ∈ rows,
          o1.labels = o2.labels ∧ o1.date = o2.date ∧ o1.fromF = o2.fromF
          ∧ o1.toF = o2.toF ∧ o1.cc = o2.cc ∧ o1.subject = o2.subject
          ∧ o1.body = o2.body :=
  c5_theorem id
    { labels := "Inbox,Important", date := "Fri, 15 Dec 2023 16:40:42 +0000",
      fromF := "a@b.com", toF := some "c@d.com", cc := some "e@f.com",
      subject := "hi", body := some "b" }
    "1702658442000" ["a@b.com", "c@d.com", "e@f.com"] (by rfl) (by rfl) (by decide)

/-! ## Claim C6 -/

/-- C6: the direction label is `Incoming` exactly when the raw `labels` field
contains the substring `"Inbox"`, and `Outgoing` for every other value; the
same holds of the `X-Gmail-Labels` field of every emitted output row. -/
theorem c6_theorem :
    (∀ x : String, (mapLabels x = "Incoming" ↔ containsSub x.data "Inbox".data = true)
      ∧ (mapLabels x = "Outgoing" ↔ containsSub x.data "Inbox".data = false))
    ∧ ∀ (ds : String → String) (r : RawRecord) (rows : List OutputRow),
        recordOutputRows ds r = .ok rows → ∀ o ∈ rows,
          (o.labels = "Incoming" ↔ containsSub r.labels.data "Inbox".data = true)
          ∧ (o.labels = "Outgoing" ↔ containsSub r.labels.data "Inbox".data = false) := by
  have hmain : ∀ x : String,
      (mapLabels x = "Incoming" ↔ containsSub x.data "Inbox".data = true)
      ∧ (mapLabels x = "Outgoing" ↔ containsSub x.data "Inbox".data = false) := by
    intro x
    unfold mapLabels
    cases h : containsSub x.data "Inbox".data with
    | true => simp [h]
    | false => simp [h]
  refine ⟨hmain, ?_⟩
  intro ds r rows hrows o ho
  have hlab : o.labels = mapLabels r.labels := by
    unfold recordOutputRows at hrows
    cases hd : getDates r.date with
    | error e => rw [hd] at hrows; cases hrows
    | ok d =>
      rw [hd] at hrows
      simp only at hrows
      cases hc : getNonDomainEmails (extractEmails (some r.fromF))
          (extractEmails r.toF) (extractEmails r.cc) with
      | error e => rw [hc] at hrows; cases hrows
      | ok cs =>
        rw [hc] at hrows
        simp only at hrows
        cases hrows
        rcases List.mem_map.mp ho with ⟨a, _, rfl⟩
        rfl
  rw [hlab]
  exact hmain r.labels

/-- C6, witness: the record-level statement at a concrete record whose labels
contain `"Inbox"`, with its single output row. -/
theorem c6_witness :
    ((({ labels := "Incoming", date := "1702658442000",
         fromF := some "x@insidemaps.com", toF := some "c@d.com", cc := none,
         subject := "hi", body := none, assignedTo := "c@d.com" } : OutputRow).labels
        = "Incoming"
      ↔ containsSub "Inbox,Important".data "Inbox".data = true)
     ∧ (({ labels := "Incoming", date := "1702658442000",
           fromF := some "x@insidemaps.com", toF := some "c@d.com", cc := none,
           subject := "hi", body := none, assignedTo := "c@d.com" } : OutputRow).labels
          = "Outgoing"
        ↔ containsSub "Inbox,Important".data "Inbox".data = false)) :=
  c6_theorem.2 id
    { labels := "Inbox,Important", date := "Fri, 15 Dec 2023 16:40:42 +0000",
      fromF := "x@insidemaps.com", toF := some "c@d.com", cc := none,
      subject := "hi", body := none }
    [{ labels := "Incoming", date := "1702658442000",
       fromF := some "x@insidemaps.com", toF := some "c@d.com", cc := none,
       subject := "hi", body := none, assignedTo := "c@d.com" }]
    (by rfl)
    { labels := "Incoming", date := "1702658442000",
      fromF := some "x@insidemaps.com", toF := some "c@d.com", cc := none,
      subject := "hi", body := none, assignedTo := "c@d.com" }
    (List.mem_singleton.mpr rfl)

/-! ## Claim C7 -/

/-- C7: a record all of whose extracted addresses (the whole normalized
`from`, every `;`-split address of normalized `to`, and every `;`-split
address of normalized `cc` when present) contain the own-domain marker gets
an empty assigned-contacts list and contributes zero output rows — it is
fully dropped. -/
theorem c7_theorem (ds : String → String) (r : RawRecord) (d : String) (t : String)
    (hd : getDates r.date = .ok d) (ht : r.toF = some t)
    (hf : containsSub (extractOne r.fromF).data markerL = true)
    (hto : ∀ a ∈ splitOnC ';' (extractOne t).data, containsSub a markerL = true)
    (hcc : ∀ c, r.cc = some c →
        ∀ a ∈ splitOnC ';' (extractOne c).data, containsSub a markerL = true) :
    getNonDomainEmails (extractEmails (some r.fromF)) (extractEmails r.toF)
        (extractEmails r.cc) = .ok []
    ∧ recordOutputRows ds r = .ok [] := by
  have hcore : gndCore (extractOne r.fromF).data (extractOne t).data
      ((extractEmails r.cc).map String.data) = [] := by
    unfold gndCore
    rw [if_pos hf]
    rw [List.filter_eq_nil_iff.mpr (fun a ha => by simp [hto a ha])]
    cases hrc : r.cc with
    | none => simp [extractEmails]
    | some c =>
      simp only [extractEmails, Option.map_some']
      rw [List.filter_eq_nil_iff.mpr (fun a ha => by simp [hcc c hrc a ha])]
      simp
  have hgnd : getNonDomainEmails (extractEmails (some r.fromF)) (extractEmails r.toF)
      (extractEmails r.cc) = .ok [] := by
    rw [ht]
    show Except.ok ((gndCore (extractOne r.fromF).data (extractOne t).data
        ((extractEmails r.cc).map String.data)).map String.mk) = .ok []
    rw [hcore]
    rfl
  refine ⟨hgnd, ?_⟩
  simp only [recordOutputRows, hd, hgnd]
  rfl

/-- C7, witness: a record whose parties are all inside the own domain yields
zero rows. -/
theorem c7_witness :
    getNonDomainEmails (extractEmails (some "a@insidemaps.com"))
        (extractEmails (some "b@insidemaps.com;c@insidemaps.com"))
        (extractEmails (some "d@insidemaps.com")) = .ok []
    ∧ recordOutputRows id
        { labels := "Sent", date := "Fri, 15 Dec 2023 16:40:42 +0000",
          fromF := "a@insidemaps.com", toF := some "b@insidemaps.com;c@insidemaps.com",
          cc := some "d@insidemaps.com", subject := "s", body := none } = .ok [] :=
  c7_theorem id
    { labels := "Sent", date := "Fri, 15 Dec 2023 16:40:42 +0000",
      fromF := "a@insidemaps.com", toF := some "b@insidemaps.com;c@insidemaps.com",
      cc := some "d@insidemaps.com", subject := "s", body := none }
    "1702658442000" "b@insidemaps.com;c@insidemaps.com" (by rfl) rfl (by decide)
    (by decide)
    (by intro c hc; cases hc; decide)

/-! ## Claim C9 -/

/-- C9: when the raw `from` field contains no match of the email pattern,
`extractEmails` returns the empty string, the empty string (which does not
contain the own-domain marker) becomes the first assigned contact, and the
record emits a first OutputRow whose Activity-Assigned-To is empty instead of
being dropped. -/
theorem c9_theorem (ds : String → String) (r : RawRecord) (d : String) (t : String)
    (hd : getDates r.date = .ok d) (ht : r.toF = some t)
    (hf : findAllL r.fromF.data = []) :
    ∃ cs : List String,
      getNonDomainEmails (extractEmails (some r.fromF)) (extractEmails r.toF)
          (extractEmails r.cc) = .ok cs
      ∧ cs.head? = some ""
      ∧ ∃ (o : OutputRow) (rest : List OutputRow),
          recordOutputRows ds r = .ok (o :: rest) ∧ o.assignedTo = "" := by
  have hfe : extractOne r.fromF = "" := by
    unfold extractOne; rw [hf]; rfl
  have hshape : ∃ tail : List String,
      (gndCore (extractOne r.fromF).data (extractOne t).data
        ((extractEmails r.cc).map String.data)).map String.mk = "" :: tail := by
    rw [hfe]
    unfold gndCore
    rw [if_neg (by decide : ¬ (containsSub "".data markerL = true))]
    exact ⟨_, rfl⟩
  rcases hshape with ⟨tail, htail⟩
  have hg : getNonDomainEmails (extractEmails (some r.fromF)) (extractEmails (some t))
      (extractEmails r.cc) = .ok ("" :: tail) := by
    show Except.ok ((gndCore (extractOne r.fromF).data (extractOne t).data
        ((extractEmails r.cc).map String.data)).map String.mk) = .ok ("" :: tail)
    rw [htail]
  refine ⟨"" :: tail, ?_, rfl, ?_⟩
  · rw [ht]; exact hg
  · refine ⟨{ labels := mapLabels r.labels, date := d,
              fromF := extractEmails (some r.fromF), toF := extractEmails (some t),
              cc := extractEmails r.cc, subject := ds r.subject, body := r.body,
              assignedTo := "" },
            tail.map (fun a => { labels := mapLabels r.labels, date := d,
                                 fromF := extractEmails (some r.fromF),
                                 toF := extractEmails (some t),
                                 cc := extractEmails r.cc, subject := ds r.subject,
                                 body := r.body, assignedTo := a }), ?_, rfl⟩
    simp only [recordOutputRows, hd, ht, hg, List.map_cons]

/-- C9, witness: a `from` field with no email-shaped substring yields a first
row assigned to the empty string. -/
theorem c9_witness :
    ∃ cs : List String,
      getNonDomainEmails (extractEmails (some "no address here"))
          (extractEmails (some "b@c.com")) (extractEmails none) = .ok cs
      ∧ cs.head? = some ""
      ∧ ∃ (o : OutputRow) (rest : List OutputRow),
          recordOutputRows id
            { labels := "Sent", date := "Fri, 15 Dec 2023 16:40:42 +0000",
              fromF := "no address here", toF := some "b@c.com", cc := none,
              subject := "s", body := none } = .ok (o :: rest)
          ∧ o.assignedTo = "" :=
  c9_theorem id
    { labels := "Sent", date := "Fri, 15 Dec 2023 16:40:42 +0000",
      fromF := "no address here", toF := some "b@c.com", cc := none,
      subject := "s", body := none }
    "1702658442000" "b@c.com" (by rfl) rfl (by rfl)

/-! ## Claim C10: supporting facts about the shape of extracted strings -/

theorem tailChar_not_space (c : Char) (h : isTailChar c = true) : isPySpace c = false := by
  have hn : 45 ≤ c.toNat := by
    unfold isTailChar isWordChar at h
    simp only [Char.isAlpha, Char.isUpper, Char.isLower, Char.isDigit,
      Bool.or_eq_true, Bool.and_eq_true, decide_eq_true_eq] at h
    rcases h with ((((⟨h1, _⟩ | ⟨h1, _⟩) | ⟨h1, _⟩) | h1) | h1) | h1
    · rw [ge_iff_le, UInt32.le_def] at h1; exact le_trans (by norm_num) h1
    · rw [ge_iff_le, UInt32.le_def] at h1; exact le_trans (by norm_num) h1
    · rw [ge_iff_le, UInt32.le_def] at h1; exact le_trans (by norm_num) h1
    · rw [h1]; decide
    · rw [h1]; decide
    · rw [h1]; decide
  have hsp : (c = ' ') = False := by
    simp only [eq_iff_iff, iff_false]
    intro hc
    rw [hc] at hn
    exact absurd hn (by decide)
  unfold isPySpace
  simp only [hsp, decide_False, Bool.false_or]
  have h1 : (c.toNat ≤ 13 : Bool) = false ∨ (9 ≤ c.toNat : Bool) = false := by
    left; simp only [decide_eq_false_iff_not]; omega
  have h2 : (c.toNat ≤ 31 : Bool) = false ∨ (28 ≤ c.toNat : Bool) = false := by
    left; simp only [decide_eq_false_iff_not]; omega
  rcases h1 with h1 | h1 <;> rcases h2 with h2 | h2 <;> simp [h1, h2]

theorem matchLast {m : List Char} (h : matchEmailAt m = some (m, [])) :
    ∃ l' c, m = l' ++ [c] ∧ isTailChar c = true := by
  rcases matchEmailAt_some_iff.mp h with ⟨a, b, cs, hmEq, _, _, _, hcne, _, _, hCall, _⟩
  rcases List.eq_nil_or_concat cs with hnil | ⟨cs', cl, hcs⟩
  · exact absurd hnil hcne
  · refine ⟨a ++ '@' :: (b ++ '.' :: cs'), cl, ?_, ?_⟩
    · rw [hmEq, hcs]; simp
    · exact hCall cl (by rw [hcs]; simp)

theorem joinSemi_last {ms : List (List Char)} (hne : ms ≠ [])
    (h : ∀ m ∈ ms, matchEmailAt m = some (m, [])) :
    ∃ l' c, joinSemi ms = l' ++ [c] ∧ isTailChar c = true := by
  induction ms with
  | nil => exact absurd rfl hne
  | cons m ms ih =>
    cases ms with
    | nil => exact matchLast (h m (List.mem_cons_self m []))
    | cons m2 ms2 =>
      rcases ih (by simp) (fun x hx => h x (List.mem_cons_of_mem m hx)) with ⟨l', c, h1, h2⟩
      refine ⟨m ++ ';' :: l', c, ?_, h2⟩
      show m ++ ';' :: joinSemi (m2 :: ms2) = (m ++ ';' :: l') ++ [c]
      rw [h1]; simp

theorem rstrip_concat {l' : List Char} {c : Char} (hc : isPySpace c = false) :
    rstripL (l' ++ [c]) = l' ++ [c] := by
  unfold rstripL
  rw [List.reverse_append]
  simp only [List.reverse_cons, List.reverse_nil, List.nil_append, List.singleton_append]
  rw [List.dropWhile_cons_of_neg (by simp [hc])]
  simp

theorem rstrip_extractOne (s : String) :
    String.mk (rstripL (extractOne s).data) = extractOne s := by
  show String.mk (rstripL (joinSemi (findAllL s.data)))
      = String.mk (joinSemi (findAllL s.data))
  congr 1
  cases hms : findAllL s.data with
  | nil => rfl
  | cons m ms =>
    rcases joinSemi_last (show (m :: ms : List (List Char)) ≠ [] by simp)
        (fun x hx => findAllL_canon x (hms.symm ▸ hx)) with ⟨l', c, h1, h2⟩
    rw [h1, rstrip_concat (tailChar_not_space c h2)]

theorem contains_single {l : List Char} {c : Char} (h : c ∈ l) :
    containsSub l [c] = true := by
  induction l with
  | nil => cases h
  | cons x xs ih =>
    show (startsWithL (x :: xs) [c] || containsSub xs [c]) = true
    rcases List.mem_cons.mp h with h1 | h2
    · have hx : startsWithL (x :: xs) [c] = true := by
        show (decide (x = c) && startsWithL xs []) = true
        simp [h1, startsWithL]
      simp [hx]
    · simp [ih h2]

theorem semi_mem_joinSemi {m : List Char} {ms : List (List Char)} (hne : ms ≠ []) :
    ';' ∈ joinSemi (m :: ms) := by
  cases ms with
  | nil => exact absurd rfl hne
  | cons m2 ms2 =>
    show ';' ∈ m ++ ';' :: joinSemi (m2 :: ms2)
    exact List.mem_append_right m (List.mem_cons_self _ _)

/-- C10: the normalized `from` field is never split on `;` during contact
assignment.  For a record whose `from` yields two or more extracted addresses
(`hsplit`) none containing the own-domain marker (`hm`), the normalized
`from` string really is `;`-joined (it contains `';'`), yet it is appended as
one single assigned contact — the head of the candidate list is the entire
joined string — and the remaining candidates come only from splitting `to`
and `cc` one address at a time; the record's first OutputRow carries the whole
joined string in Activity-Assigned-To. -/
theorem c10_theorem (ds : String → String) (r : RawRecord) (d : String) (t : String)
    (hd : getDates r.date = .ok d) (ht : r.toF = some t)
    (hsplit : 2 ≤ (findAllL r.fromF.data).length)
    (hm : containsSub (extractOne r.fromF).data markerL = false) :
    containsSub (extractOne r.fromF).data [';'] = true
    ∧ (∃ rest : List String,
        getNonDomainEmails (extractEmails (some r.fromF)) (extractEmails r.toF)
            (extractEmails r.cc) = .ok (extractOne r.fromF :: rest)
        ∧ rest = ((splitOnC ';' (extractOne t).data).filter
              (fun a => !containsSub a markerL)).map (fun a => String.mk (rstripL a))
            ++ (match r.cc with
                | none => []
                | some c => ((splitOnC ';' (extractOne c).data).filter
                    (fun a => !containsSub a markerL)).map
                      (fun a => String.mk (rstripL a))))
    ∧ ∃ (o : OutputRow) (rrest : List OutputRow),
        recordOutputRows ds r = .ok (o :: rrest)
        ∧ o.assignedTo = extractOne r.fromF := by
  have hsemi : containsSub (extractOne r.fromF).data [';'] = true := by
    show containsSub (joinSemi (findAllL r.fromF.data)) [';'] = true
    cases hms : findAllL r.fromF.data with
    | nil => rw [hms] at hsplit; simp at hsplit
    | cons m ms =>
      cases ms with
      | nil => rw [hms] at hsplit; simp at hsplit
      | cons m2 ms2 => exact contains_single (semi_mem_joinSemi (by simp))
  have hcore : gndCore (extractOne r.fromF).data (extractOne t).data
      ((extractEmails r.cc).map String.data)
    = rstripL (extractOne r.fromF).data ::
      (((splitOnC ';' (extractOne t).data).filter
          (fun a => !containsSub a markerL)).map rstripL
        ++ (match (extractEmails r.cc).map String.data with
            | none => []
            | some c => ((splitOnC ';' c).filter
                (fun a => !containsSub a markerL)).map rstripL)) := by
    unfold gndCore
    rw [if_neg (by simp [hm])]
    rfl
  have hg : getNonDomainEmails (extractEmails (some r.fromF)) (extractEmails (some t))
      (extractEmails r.cc)
    = .ok (extractOne r.fromF ::
        ((((splitOnC ';' (extractOne t).data).filter
            (fun a => !containsSub a markerL)).map rstripL
          ++ (match (extractEmails r.cc).map String.data with
              | none => []
              | some c => ((splitOnC ';' c).filter
                  (fun a => !containsSub a markerL)).map rstripL)).map String.mk)) := by
    show Except.ok ((gndCore (extractOne r.fromF).data (extractOne t).data
        ((extractEmails r.cc).map String.data)).map String.mk) = _
    rw [hcore]
    simp only [List.map_cons]
    rw [rstrip_extractOne]
  refine ⟨hsemi, ⟨_, by rw [ht]; exact hg, ?_⟩, ?_⟩
  · simp only [List.map_append, List.map_map]
    congr 1
    cases hrc : r.cc with
    | none => rfl
    | some c =>
      show List.map String.mk ((((splitOnC ';' (extractOne c).data).filter
          (fun a => !containsSub a markerL)).map rstripL)) = _
      simp only [List.map_map]
      rfl
  · refine ⟨{ labels := mapLabels r.labels, date := d,
              fromF := extractEmails (some r.fromF), toF := extractEmails (some t),
              cc := extractEmails r.cc, subject := ds r.subject, body := r.body,
              assignedTo := extractOne r.fromF },
      (((((splitOnC ';' (extractOne t).data).filter
            (fun a => !containsSub a markerL)).map rstripL
          ++ (match (extractEmails r.cc).map String.data with
              | none => []
              | some c => ((splitOnC ';' c).filter
                  (fun a => !containsSub a markerL)).map rstripL)).map String.mk).map
        (fun a => { labels := mapLabels r.labels, date := d,
                    fromF := extractEmails (some r.fromF), toF := extractEmails (some t),
                    cc := extractEmails r.cc, subject := ds r.subject, body := r.body,
                    assignedTo := a })), ?_, rfl⟩
    simp only [recordOutputRows, hd, ht, hg, List.map_cons]


/-- C10, witness: a `from` field with two external addresses produces the
single joined contact `"a@x.com;b@y.com"`. -/
theorem c10_witness :
    containsSub (extractOne "A <a@x.com> B <b@y.com>").data [';'] = true
    ∧ (∃ rest : List String,
        getNonDomainEmails (extractEmails (some "A <a@x.com> B <b@y.com>"))
            (extractEmails (some "c@d.com")) (extractEmails none)
          = .ok (extractOne "A <a@x.com> B <b@y.com>" :: rest)
        ∧ rest = ((splitOnC ';' (extractOne "c@d.com").data).filter
              (fun a => !containsSub a markerL)).map (fun a => String.mk (rstripL a))
            ++ [])
    ∧ ∃ (o : OutputRow) (rrest : List OutputRow),
        recordOutputRows id
          { labels := "Sent", date := "Fri, 15 Dec 2023 16:40:42 +0000",
            fromF := "A <a@x.com> B <b@y.com>", toF := some "c@d.com", cc := none,
            subject := "s", body := none } = .ok (o :: rrest)
        ∧ o.assignedTo = extractOne "A <a@x.com> B <b@y.com>" :=
  c10_theorem id
    { labels := "Sent", date := "Fri, 15 Dec 2023 16:40:42 +0000",
      fromF := "A <a@x.com> B <b@y.com>", toF := some "c@d.com", cc := none,
      subject := "s", body := none }
    "1702658442000" "c@d.com" (by rfl) rfl (by decide) (by decide)

/-! ## Claim C8 -/

/-- C8: email extraction is idempotent.  For every `;`-joined sequence of
addresses each fully matching the extraction pattern, `extractEmails` returns
the string unchanged; in particular `extractEmails("a@b.com;c@d.com")` is
unchanged; and `extractEmails(extractEmails(s)) = extractEmails(s)` for every
non-null string `s`. -/
theorem c8_theorem :
    (∀ ms : List String, (∀ m ∈ ms, matchEmailAt m.data = some (m.data, [])) →
      extractEmails (some (String.mk (joinSemi (ms.map String.data))))
        = some (String.mk (joinSemi (ms.map String.data))))
    ∧ extractEmails (some "a@b.com;c@d.com") = some "a@b.com;c@d.com"
    ∧ ∀ s : String, extractEmails (extractEmails (some s)) = extractEmails (some s) := by
  refine ⟨?_, by rfl, ?_⟩
  · intro ms hms
    show some (String.mk (joinSemi (findAllL (joinSemi (ms.map String.data)))))
        = some (String.mk (joinSemi (ms.map String.data)))
    rw [findAllL_joinSemi (fun m hm => ?_)]
    rcases List.mem_map.mp hm with ⟨m', hm', rfl⟩
    exact hms m' hm'
  · intro s
    show some (String.mk (joinSemi (findAllL (joinSemi (findAllL s.data)))))
        = some (String.mk (joinSemi (findAllL s.data)))
    rw [findAllL_joinSemi (fun m hm => findAllL_canon m hm)]

/-- C8, witness: the clean-input part of the claim applied to the two
addresses of the claim's example. -/
theorem c8_witness :
    extractEmails (some (String.mk (joinSemi (["a@b.com", "c@d.com"].map String.data))))
      = some (String.mk (joinSemi (["a@b.com", "c@d.com"].map String.data))) :=
  c8_theorem.1 ["a@b.com", "c@d.com"] (by decide)
